import Mathlib

/-!
Shallow embedding of the BRC-20 indexer core of this repository.

The database is modelled as lists of typed rows (one list per table); each
method of the store class becomes a Lean function from a `Store` to a
`Store` (writes) or to a result type (reads).  Decimal amount strings are
modelled by their exact numeric value (a rational, matching the exact
BigNumber arithmetic of the code) together with the number of digits the
string carries after the dot, which is the only string-level fact the code
inspects.
-/

namespace Brc20

/-- SQL LOWER, and String.toLowerCase in the handler code, on ticker
strings: ASCII case folding. -/
def lowerString (s : String) : String := ⟨s.data.map Char.toLower⟩

/-- A decimal amount string as the code sees it: `value` is its exact
numeric value (BigNumber arithmetic is exact on decimal strings), and
`fracDigits` is `some n` when the string contains a dot with `n` digits
after it (the code checks `amt.includes('.')` and then the length of
`amt.split('.')[1]`). -/
structure Amt where
  value : ℚ
  fracDigits : Option Nat
deriving DecidableEq, Repr

/-- Payload of a `deploy` inscription (already validated by the parser). -/
structure Brc20Deploy where
  tick : String
  max : ℚ
  lim : Option ℚ
  dec : Option Nat
deriving DecidableEq, Repr

/-- Payload of a `mint` inscription. -/
structure Brc20Mint where
  tick : String
  amt : Amt
deriving DecidableEq, Repr

/-- Payload of a `transfer` inscription. -/
structure Brc20Transfer where
  tick : String
  amt : Amt
deriving DecidableEq, Repr

/-- A DbLocationInsert: where an inscription sits.  `address` is `none`
when the inscription was spent as a fee. -/
structure DbLocation where
  block_height : Nat
  tx_id : String
  address : Option String
deriving DecidableEq, Repr

/-- A row of `brc20_deploys`. -/
structure TokenRow where
  id : Nat
  inscription_id : Nat
  block_height : Nat
  tx_id : String
  address : String
  ticker : String
  max : ℚ
  limit : Option ℚ
  decimals : Nat
deriving DecidableEq, Repr

/-- A row of `brc20_mints`.  `amount` stores the original requested
amount, exactly as the code comments. -/
structure MintRow where
  inscription_id : Nat
  brc20_deploy_id : Nat
  block_height : Nat
  tx_id : String
  address : Option String
  amount : ℚ
deriving DecidableEq, Repr

/-- A row of `brc20_transfers`. -/
structure TransferRow where
  id : Nat
  inscription_id : Nat
  brc20_deploy_id : Nat
  block_height : Nat
  tx_id : String
  from_address : String
  to_address : Option String
  amount : ℚ
deriving DecidableEq, Repr

/-- A row of `brc20_balances`: an append-only balance delta. -/
structure BalanceRow where
  inscription_id : Nat
  brc20_deploy_id : Nat
  block_height : Nat
  address : Option String
  avail_balance : ℚ
  trans_balance : ℚ
deriving DecidableEq, Repr

/-- A row of `brc20_events` (shape of DbBrc20EventInsert). -/
structure EventRow where
  inscription_id : Nat
  brc20_deploy_id : Nat
  deploy_id : Option Nat
  mint_id : Option Nat
  transfer_id : Option Nat
deriving DecidableEq, Repr

/-- A row of the `locations` table (owned by the parent store; the
BRC-20 store joins against it in insertOperationTransfer). -/
structure LocationRow where
  inscription_id : Nat
  block_height : Nat
  tx_id : String
  address : Option String
deriving DecidableEq, Repr

/-- The database state: one list per table, plus the serial-id counters
for the two tables whose generated ids the code reads back. -/
structure Store where
  deploys : List TokenRow
  mints : List MintRow
  transfers : List TransferRow
  balances : List BalanceRow
  events : List EventRow
  locRows : List LocationRow
  nextDeployId : Nat
  nextTransferId : Nat
deriving DecidableEq, Repr

def emptyStore : Store := ⟨[], [], [], [], [], [], 1, 1⟩

/-- `getDeploy`: SELECT from brc20_deploys WHERE LOWER(ticker) =
LOWER(ticker), returning the first row if any. -/
def getDeploy (s : Store) (ticker : String) : Option TokenRow :=
  s.deploys.find? (fun d => lowerString d.ticker == lowerString ticker)

/-- The sum `COALESCE(SUM(amount), 0)` over brc20_mints rows of one
token (used by insertMint to compute the minted supply). -/
def mintedAmountSum (s : Store) (tokenId : Nat) : ℚ :=
  ((s.mints.filter (fun m => m.brc20_deploy_id == tokenId)).map (fun m => m.amount)).sum

/-- The brc20_balances rows of one token. -/
def tokenBalances (s : Store) (tokenId : Nat) : List BalanceRow :=
  s.balances.filter (fun b => b.brc20_deploy_id == tokenId)

/-- Sum of the avail_balance deltas of one token (over every address):
the effective amounts credited, in states where all balance rows of the
token come from mints. -/
def effMinted (s : Store) (tokenId : Nat) : ℚ :=
  ((tokenBalances s tokenId).map (fun b => b.avail_balance)).sum

/-- The avail balance `getBalances` reports for one address and one
ticker: the join of brc20_balances with brc20_deploys on deploy id and
lowercased ticker, summing avail_balance (an empty result reads as 0 via
the `?? 0` in insertTransfer). -/
def availBalance (s : Store) (address : String) (tick : String) : ℚ :=
  ((s.balances.filter (fun b =>
      b.address == some address &&
      s.deploys.any (fun d =>
        d.id == b.brc20_deploy_id && lowerString d.ticker == lowerString tick))).map
    (fun b => b.avail_balance)).sum

/-- `token.limit && BigNumber(amt).isGreaterThan(token.limit)`: the
per-mint limit check (limit is non-null and the amount exceeds it). -/
def limitExceeded (tok : TokenRow) (amt : Amt) : Bool :=
  match tok.limit with
  | some l => decide (l < amt.value)
  | none => false

/-- `amt.includes('.') && amt.split('.')[1].length >
parseInt(token.decimals)`: the decimal-digits check. -/
def decimalsExceeded (tok : TokenRow) (amt : Amt) : Bool :=
  match amt.fracDigits with
  | some n => decide (tok.decimals < n)
  | none => false

/-- `insertDeploy`: no-op on a null address; conditional insert that is
a no-op when a row with the same lowercased ticker exists (ON CONFLICT
(LOWER(ticker)) DO NOTHING); writes a deploy event only when the row was
created (insertion.count > 0). -/
def insertDeploy (s : Store) (deploy : Brc20Deploy) (iid : Nat) (loc : DbLocation) :
    Store :=
  match loc.address with
  | none => s
  | some addr =>
    if s.deploys.any (fun d => lowerString d.ticker == lowerString deploy.tick) then s
    else
      { s with
        deploys := s.deploys ++
          [⟨s.nextDeployId, iid, loc.block_height, loc.tx_id, addr, deploy.tick,
            deploy.max, deploy.lim, deploy.dec.getD 18⟩],
        events := s.events ++ [⟨iid, s.nextDeployId, some s.nextDeployId, none, none⟩],
        nextDeployId := s.nextDeployId + 1 }

/-- `insertMint`: reject if the token is missing, if the amount exceeds a
set per-mint limit, if the fractional digits exceed the token decimals,
or if `max - SUM(brc20_mints.amount)` is ≤ 0; otherwise insert a mint
row recording the requested amount and a balance delta crediting
`min(availSupply, amt)` to the minting address.  No event row is
written. -/
def insertMint (s : Store) (m : Brc20Mint) (iid : Nat) (loc : DbLocation) : Store :=
  match getDeploy s m.tick with
  | none => s
  | some token =>
    if limitExceeded token m.amt then s
    else if decimalsExceeded token m.amt then s
    else if token.max - mintedAmountSum s token.id ≤ 0 then s
    else
      { s with
        mints := s.mints ++
          [⟨iid, token.id, loc.block_height, loc.tx_id, loc.address, m.amt.value⟩],
        balances := s.balances ++
          [⟨iid, token.id, loc.block_height, loc.address,
            min (token.max - mintedAmountSum s token.id) m.amt.value, 0⟩] }

/-- `insertTransfer`: reject if the destination address is null (fee
spend), if the token is missing, or if the amount exceeds the sender's
available balance; otherwise insert a transfer-intent row with
`to_address = null` and a balance delta `(-amt, +amt)` for the sender.
No event row is written. -/
def insertTransfer (s : Store) (tr : Brc20Transfer) (iid : Nat) (loc : DbLocation) :
    Store :=
  match loc.address with
  | none => s
  | some addr =>
    match getDeploy s tr.tick with
    | none => s
    | some token =>
      if availBalance s addr tr.tick < tr.amt.value then s
      else
        { s with
          transfers := s.transfers ++
            [⟨s.nextTransferId, iid, token.id, loc.block_height, loc.tx_id, addr,
              none, tr.amt.value⟩],
          balances := s.balances ++
            [⟨iid, token.id, loc.block_height, some addr,
              -tr.amt.value, tr.amt.value⟩],
          nextTransferId := s.nextTransferId + 1 }

/-- `applyBalanceTransfer`: unconditionally append the two settlement
balance deltas (sender `(0, -amt)`; destination `( +amt, 0)` at
`location.address`, which may be null) and set the intent's
`to_address` to `location.address` (UPDATE ... WHERE id = t.id). -/
def applyBalanceTransfer (s : Store) (t : TransferRow) (loc : DbLocation) : Store :=
  { s with
    balances := s.balances ++
      [⟨t.inscription_id, t.brc20_deploy_id, loc.block_height, some t.from_address,
        0, -t.amount⟩,
       ⟨t.inscription_id, t.brc20_deploy_id, loc.block_height, loc.address,
        t.amount, 0⟩],
    transfers := s.transfers.map (fun r =>
      if r.id == t.id then { r with to_address := loc.address } else r) }

/-- The brc20_transfers rows of one inscription. -/
def transFor (s : Store) (iid : Nat) : List TransferRow :=
  s.transfers.filter (fun t => t.inscription_id == iid)

/-- Number of `locations` rows of one inscription. -/
def locCount (s : Store) (iid : Nat) : Nat :=
  (s.locRows.filter (fun l => l.inscription_id == iid)).length

/-- `insertOperationTransfer`: count the rows of `locations` joined with
`brc20_transfers` for this inscription, capped at 3 (LIMIT 3); when the
count is exactly 2 (genesis + this first move) settle using the first
joined transfer row, otherwise ignore. -/
def insertOperationTransfer (s : Store) (iid : Nat) (loc : DbLocation) : Store :=
  let ts := transFor s iid
  let joinCount := min (locCount s iid * ts.length) 3
  if joinCount == 2 then
    match ts with
    | [] => s
    | t :: _ => applyBalanceTransfer s t loc
  else s

/-- Modelled from the spec: the parent store (`pg-store.ts`, not under
src/) records one `locations` row for each appearance of an inscription
before dispatching it to the BRC-20 store, so at the first move the
inscription has its genesis row plus the new row. -/
def recordLoc (s : Store) (iid : Nat) (loc : DbLocation) : Store :=
  { s with locRows := s.locRows ++ [⟨iid, loc.block_height, loc.tx_id, loc.address⟩] }

/-- Modelled from the spec: a genesis delivery of a deploy inscription
(location recorded, then insertOperationGenesis dispatches on the op). -/
def genesisDeploy (s : Store) (d : Brc20Deploy) (iid : Nat) (loc : DbLocation) : Store :=
  insertDeploy (recordLoc s iid loc) d iid loc

/-- Modelled from the spec: a genesis delivery of a mint inscription. -/
def genesisMint (s : Store) (m : Brc20Mint) (iid : Nat) (loc : DbLocation) : Store :=
  insertMint (recordLoc s iid loc) m iid loc

/-- Modelled from the spec: a genesis delivery of a transfer inscription. -/
def genesisTransfer (s : Store) (tr : Brc20Transfer) (iid : Nat) (loc : DbLocation) :
    Store :=
  insertTransfer (recordLoc s iid loc) tr iid loc

/-- Modelled from the spec: a movement delivery of an inscription
(location recorded, then insertOperationTransfer). -/
def moveInscription (s : Store) (iid : Nat) (loc : DbLocation) : Store :=
  insertOperationTransfer (recordLoc s iid loc) iid loc

/-- Result of `getTokenSupply`: `missing` models the undefined return
when the token is not deployed; `fail` models the thrown TypeError when
`minted[0]` is dereferenced on an empty query result. -/
inductive SupplyResult where
  | missing : SupplyResult
  | fail : SupplyResult
  | found (max minted : ℚ) (holders : Nat) : SupplyResult
deriving DecidableEq, Repr

/-- The holders count of `getTokenSupply`: distinct addresses of the
token's balance rows whose summed total balance is strictly positive. -/
def holdersCount (s : Store) (tokenId : Nat) : Nat :=
  (((tokenBalances s tokenId).map (fun b => b.address)).dedup.filter
    (fun a => decide (0 <
      (((tokenBalances s tokenId).filter (fun b => b.address == a)).map
        (fun b => b.avail_balance + b.trans_balance)).sum))).length

/-- `getTokenSupply`: undefined when the token is missing; otherwise the
minted query groups the token's balance rows, so with no balance rows it
returns no row and `minted[0].total` throws (`fail`); otherwise the
triple (max from the deploy row keyed by its id, summed deltas, holders
with positive balance). -/
def getTokenSupply (s : Store) (ticker : String) : SupplyResult :=
  match getDeploy s ticker with
  | none => .missing
  | some d =>
    if (tokenBalances s d.id).isEmpty then .fail
    else
      .found d.max
        (((tokenBalances s d.id).map (fun b => b.avail_balance + b.trans_balance)).sum)
        (holdersCount s d.id)

/-- A delivery offered by the ordhook collaborator: a block apply or a
block rollback (the two handlers share one queue). -/
inductive Delivery where
  | apply (blockId : Nat) : Delivery
  | rollback (blockId : Nat) : Delivery
deriving DecidableEq, Repr

/-- The onBlock / onBlockRollBack handler bodies: return false (reject)
when `jobQueue.size > 10`, otherwise enqueue at the tail and return
true (accept). -/
def onDelivery (q : List Delivery) (d : Delivery) : Bool × List Delivery :=
  if q.length > 10 then (false, q) else (true, q ++ [d])

/-- Modelled from the spec: the PQueue instance (external library) is
created with concurrency 1, so a single worker drains the queue taking
the head first; this computes the order in which queued deliveries are
processed. -/
def drainOrder : List Delivery → List Delivery
  | [] => []
  | d :: rest => d :: drainOrder rest

/-! Concrete scenario states, built by running the operations from the
empty store. -/

def tickOrdi : String := "ordi"
def tickPepe : String := "pepe"
def tickPunk : String := "punk"
def tickSats : String := "sats"
def tickDeci : String := "deci"

/-- Scenario: deploy of `ordi` with max 21000000 and limit 1000. -/
def sOrdi0 : Store :=
  insertDeploy emptyStore ⟨tickOrdi, 21000000, some 1000, none⟩ 1 ⟨100, "tx1", some "alice"⟩

/-- Scenario: `sOrdi0` followed by a mint of 500 from address A. -/
def sOrdi1 : Store :=
  insertMint sOrdi0 ⟨tickOrdi, ⟨500, none⟩⟩ 2 ⟨101, "tx2", some "A"⟩

/-- The `ordi` deploy row of `sOrdi0`. -/
def tokOrdi : TokenRow := ⟨1, 1, 100, "tx1", "alice", tickOrdi, 21000000, some 1000, 18⟩

/-- Scenario: deploy of `deci` with 2 decimals. -/
def sDeci : Store :=
  insertDeploy emptyStore ⟨tickDeci, 1000, none, some 2⟩ 1 ⟨100, "tx1", some "alice"⟩

/-- Scenario: deploy of `pepe` with no mints at all. -/
def sPepe : Store :=
  insertDeploy emptyStore ⟨tickPepe, 100, none, none⟩ 1 ⟨100, "tx1", some "alice"⟩

/-- Scenario: deploy of `punk` with no mints at all. -/
def sPunk : Store :=
  insertDeploy emptyStore ⟨tickPunk, 1000, none, none⟩ 1 ⟨100, "tx1", some "alice"⟩

/-- Transfer scenario: genesis of the `ordi` deploy inscription. -/
def sT1 : Store :=
  genesisDeploy emptyStore ⟨tickOrdi, 21000000, some 1000, none⟩ 1 ⟨100, "t1", some "A"⟩

/-- Transfer scenario: mint of 1000 to A. -/
def sT2 : Store := genesisMint sT1 ⟨tickOrdi, ⟨1000, none⟩⟩ 2 ⟨101, "t2", some "A"⟩

/-- Transfer scenario: inscribe-transfer of 300 by A (inscription 3). -/
def sT3 : Store := genesisTransfer sT2 ⟨tickOrdi, ⟨300, none⟩⟩ 3 ⟨102, "t3", some "A"⟩

/-- Transfer scenario: first move of inscription 3, to address B. -/
def sT4 : Store := moveInscription sT3 3 ⟨103, "t4", some "B"⟩

/-- Transfer scenario: first move of inscription 3 spent as a fee (no
destination address). -/
def sT4fee : Store := moveInscription sT3 3 ⟨104, "t5", none⟩

/-! Helper lemmas shared by the claim theorems. -/

/-- insertMint never touches the deploys table. -/
lemma insertMint_deploys (s : Store) (m : Brc20Mint) (iid : Nat) (loc : DbLocation) :
    (insertMint s m iid loc).deploys = s.deploys := by
  unfold insertMint
  cases getDeploy s m.tick with
  | none => rfl
  | some tok =>
    dsimp only
    split
    · rfl
    · split
      · rfl
      · split <;> rfl

/-- getDeploy only reads the deploys table. -/
lemma getDeploy_congr (s s' : Store) (t : String) (h : s'.deploys = s.deploys) :
    getDeploy s' t = getDeploy s t := by
  unfold getDeploy
  rw [h]

/-- Characterization of insertMint once the token is found and the limit
and decimals gates pass: reject exactly when the remaining code-side
supply `max - SUM(amount)` is ≤ 0, otherwise append the mint row
(requested amount) and the balance delta (clamped amount). -/
lemma insertMint_spec (s : Store) (m : Brc20Mint) (tok : TokenRow) (iid : Nat)
    (loc : DbLocation)
    (hdep : getDeploy s m.tick = some tok)
    (hl : limitExceeded tok m.amt = false)
    (hd : decimalsExceeded tok m.amt = false) :
    (tok.max - mintedAmountSum s tok.id ≤ 0 → insertMint s m iid loc = s) ∧
    (0 < tok.max - mintedAmountSum s tok.id →
      insertMint s m iid loc = { s with
        mints := s.mints ++
          [⟨iid, tok.id, loc.block_height, loc.tx_id, loc.address, m.amt.value⟩],
        balances := s.balances ++
          [⟨iid, tok.id, loc.block_height, loc.address,
            min (tok.max - mintedAmountSum s tok.id) m.amt.value, 0⟩] }) := by
  unfold insertMint
  rw [hdep]
  dsimp only
  rw [hl, hd]
  simp only [Bool.false_eq_true, if_false]
  constructor
  · intro h
    rw [if_pos h]
  · intro h
    rw [if_neg (not_le.mpr h)]

/-- C7: a mint is rejected, with the store unchanged, when the token is
not deployed, when the token has a per-mint limit and the requested
amount strictly exceeds it, or when the fractional digits of the
requested amount exceed the token's decimals. -/
theorem mint_rejection_conditions (s : Store) (m : Brc20Mint) (iid : Nat)
    (loc : DbLocation) :
    (getDeploy s m.tick = none → insertMint s m iid loc = s) ∧
    (∀ tok, getDeploy s m.tick = some tok →
      ((∀ l, tok.limit = some l → l < m.amt.value → insertMint s m iid loc = s) ∧
       (∀ n, m.amt.fracDigits = some n → tok.decimals < n →
          insertMint s m iid loc = s))) := by
  constructor
  · intro h
    unfold insertMint
    rw [h]
  · intro tok hdep
    constructor
    · intro l hlim hlt
      unfold insertMint
      rw [hdep]
      dsimp only
      have hL : limitExceeded tok m.amt = true := by
        unfold limitExceeded
        rw [hlim]
        exact decide_eq_true hlt
      rw [hL]
      simp
    · intro n hfrac hgt
      unfold insertMint
      rw [hdep]
      dsimp only
      have hD : decimalsExceeded tok m.amt = true := by
        unfold decimalsExceeded
        rw [hfrac]
        exact decide_eq_true hgt
      rw [hD]
      cases hL : limitExceeded tok m.amt <;> simp

/-- Witness for C7 at concrete inputs: a mint of a never-deployed
ticker is a no-op; the spec scenario-2 mint of 2000 against limit 1000
is a no-op; a mint with 3 fractional digits against 2 decimals is a
no-op. -/
theorem mint_rejection_conditions_witness :
    insertMint emptyStore ⟨tickOrdi, ⟨500, none⟩⟩ 9 ⟨102, "tx9", some "B"⟩ = emptyStore ∧
    insertMint sOrdi1 ⟨tickOrdi, ⟨2000, none⟩⟩ 9 ⟨102, "tx9", some "B"⟩ = sOrdi1 ∧
    insertMint sDeci ⟨tickDeci, ⟨1, some 3⟩⟩ 9 ⟨102, "tx9", some "B"⟩ = sDeci := by
  refine ⟨?_, ?_, ?_⟩
  · exact (mint_rejection_conditions emptyStore ⟨tickOrdi, ⟨500, none⟩⟩ 9
      ⟨102, "tx9", some "B"⟩).1 (by with_unfolding_all rfl)
  · exact ((mint_rejection_conditions sOrdi1 ⟨tickOrdi, ⟨2000, none⟩⟩ 9
      ⟨102, "tx9", some "B"⟩).2 tokOrdi (by with_unfolding_all rfl)).1 1000
      (by with_unfolding_all rfl) (by with_unfolding_all decide)
  · exact ((mint_rejection_conditions sDeci ⟨tickDeci, ⟨1, some 3⟩⟩ 9
      ⟨102, "tx9", some "B"⟩).2 ⟨1, 1, 100, "tx1", "alice", tickDeci, 1000, none, 2⟩
      (by with_unfolding_all rfl)).2 3 rfl (by decide)

/-- C5 (amended): every accepted mint appends exactly one mint row
recording the originally requested amount and one balance delta
`(+effective, 0)` for the minting address, where effective is the
requested amount clamped to the remaining supply; no event row is
written. -/
theorem mint_insert_effects (s : Store) (m : Brc20Mint) (tok : TokenRow) (iid : Nat)
    (loc : DbLocation)
    (hdep : getDeploy s m.tick = some tok)
    (hl : limitExceeded tok m.amt = false)
    (hd : decimalsExceeded tok m.amt = false)
    (hacc : 0 < tok.max - mintedAmountSum s tok.id) :
    insertMint s m iid loc = { s with
      mints := s.mints ++
        [⟨iid, tok.id, loc.block_height, loc.tx_id, loc.address, m.amt.value⟩],
      balances := s.balances ++
        [⟨iid, tok.id, loc.block_height, loc.address,
          min (tok.max - mintedAmountSum s tok.id) m.amt.value, 0⟩] } ∧
    (insertMint s m iid loc).events = s.events := by
  have h := (insertMint_spec s m tok iid loc hdep hl hd).2 hacc
  exact ⟨h, by rw [h]⟩

/-- Witness for C5 at the spec scenario-1 mint: minting 500 `ordi`
appends exactly the mint row (requested 500) and the `(+500, 0)` delta
for A and leaves the event log unchanged. -/
theorem mint_insert_effects_witness :
    insertMint sOrdi0 ⟨tickOrdi, ⟨500, none⟩⟩ 2 ⟨101, "tx2", some "A"⟩ = { sOrdi0 with
      mints := sOrdi0.mints ++ [⟨2, 1, 101, "tx2", some "A", 500⟩],
      balances := sOrdi0.balances ++ [⟨2, 1, 101, some "A", 500, 0⟩] } ∧
    sOrdi1.events = sOrdi0.events := by
  have h := mint_insert_effects sOrdi0 ⟨tickOrdi, ⟨500, none⟩⟩ tokOrdi 2
    ⟨101, "tx2", some "A"⟩ (by with_unfolding_all rfl) (by with_unfolding_all rfl)
    rfl (by with_unfolding_all decide)
  constructor
  · rw [h.1]
    with_unfolding_all rfl
  · exact h.2

/-- Counterexample for C5 as stated: after the accepted scenario-1 mint
the store holds one mint row but the event log is exactly the deploy
event, with no event row carrying a mint id: no mint event was
written. -/
theorem mint_event_not_written :
    sOrdi1.mints.length = 1 ∧
    sOrdi1.events = sOrdi0.events ∧
    sOrdi1.events.filter (fun e => e.mint_id.isSome) = [] := by
  refine ⟨?_, ?_, ?_⟩ <;> with_unfolding_all rfl

/-- C3 (amended): moving a reserved transfer inscription settles it
unconditionally: the sender receives a `(0, -amt)` delta releasing the
transferable hold; a recipient credit delta `(+amt, 0)` is written even
when the destination has no address (fee spend), in that case carrying a
null address; the intent's `to_address` is set to `location.address`
(null again on fee spend, not a distinct sentinel); and no
transfer-settle event row is written. -/
theorem fee_spend_settlement (s : Store) (t : TransferRow) (bh : Nat) (tx : String) :
    (applyBalanceTransfer s t ⟨bh, tx, none⟩ = { s with
      balances := s.balances ++
        [⟨t.inscription_id, t.brc20_deploy_id, bh, some t.from_address, 0, -t.amount⟩,
         ⟨t.inscription_id, t.brc20_deploy_id, bh, none, t.amount, 0⟩],
      transfers := s.transfers.map (fun r =>
        if r.id == t.id then { r with to_address := none } else r) }) ∧
    (applyBalanceTransfer s t ⟨bh, tx, none⟩).events = s.events ∧
    (∀ a : String, applyBalanceTransfer s t ⟨bh, tx, some a⟩ = { s with
      balances := s.balances ++
        [⟨t.inscription_id, t.brc20_deploy_id, bh, some t.from_address, 0, -t.amount⟩,
         ⟨t.inscription_id, t.brc20_deploy_id, bh, some a, t.amount, 0⟩],
      transfers := s.transfers.map (fun r =>
        if r.id == t.id then { r with to_address := some a } else r) }) :=
  ⟨rfl, rfl, fun _ => rfl⟩

/-- Counterexample for C3 as stated: settling the reserved transfer of
300 `ordi` by a fee spend writes a recipient credit delta of
`(+300, 0)` with a null address (the claim says none is written), sets
`to_address` to null rather than a sentinel, and writes no
transfer-settle event. -/
theorem fee_spend_credit_written :
    sT4fee.balances = sT3.balances ++
      [⟨3, 1, 104, some "A", 0, -300⟩, ⟨3, 1, 104, none, 300, 0⟩] ∧
    sT4fee.transfers.map (fun r => r.to_address) = [none] ∧
    sT4fee.events.filter (fun e => e.transfer_id.isSome) = [] := by
  refine ⟨?_, ?_, ?_⟩ <;> with_unfolding_all rfl

/-- C4 (amended): an inscribe-transfer is rejected with the store
unchanged when the token is not deployed or when the requested amount
exceeds the sender's current available balance; otherwise exactly one
transfer-intent row with `to_address = null` and one balance delta
`(-amt, +amt)` for the sender are appended; no event row is written on
any path. -/
theorem inscribe_transfer_effects (s : Store) (tr : Brc20Transfer) (iid bh : Nat)
    (tx addr : String) :
    (getDeploy s tr.tick = none → insertTransfer s tr iid ⟨bh, tx, some addr⟩ = s) ∧
    (∀ tok, getDeploy s tr.tick = some tok →
      ((availBalance s addr tr.tick < tr.amt.value →
          insertTransfer s tr iid ⟨bh, tx, some addr⟩ = s) ∧
       (tr.amt.value ≤ availBalance s addr tr.tick →
          insertTransfer s tr iid ⟨bh, tx, some addr⟩ = { s with
            transfers := s.transfers ++
              [⟨s.nextTransferId, iid, tok.id, bh, tx, addr, none, tr.amt.value⟩],
            balances := s.balances ++
              [⟨iid, tok.id, bh, some addr, -tr.amt.value, tr.amt.value⟩],
            nextTransferId := s.nextTransferId + 1 }))) ∧
    (insertTransfer s tr iid ⟨bh, tx, some addr⟩).events = s.events := by
  refine ⟨?_, ?_, ?_⟩
  · intro h
    unfold insertTransfer
    rw [h]
  · intro tok hdep
    constructor
    · intro hlt
      unfold insertTransfer
      rw [hdep]
      dsimp only
      rw [if_pos hlt]
    · intro hle
      unfold insertTransfer
      rw [hdep]
      dsimp only
      rw [if_neg (not_lt.mpr hle)]
  · unfold insertTransfer
    dsimp only
    cases getDeploy s tr.tick with
    | none => rfl
    | some tok =>
      dsimp only
      split <;> rfl

/-- Witness for C4: the spec insufficient-balance scenario (A holds 500
available `ordi`; inscribe-transfer of 501 is a no-op) and the accepted
inscribe-transfer of 300 appending exactly the intent row and the
`(-300, +300)` delta. -/
theorem inscribe_transfer_effects_witness :
    insertTransfer sOrdi1 ⟨tickOrdi, ⟨501, none⟩⟩ 9 ⟨102, "tx9", some "A"⟩ = sOrdi1 ∧
    insertTransfer sOrdi1 ⟨tickOrdi, ⟨300, none⟩⟩ 3 ⟨102, "tx9", some "A"⟩ =
      { sOrdi1 with
        transfers := sOrdi1.transfers ++ [⟨1, 3, 1, 102, "tx9", "A", none, 300⟩],
        balances := sOrdi1.balances ++ [⟨3, 1, 102, some "A", -300, 300⟩],
        nextTransferId := 2 } := by
  constructor
  · exact ((inscribe_transfer_effects sOrdi1 ⟨tickOrdi, ⟨501, none⟩⟩ 9 102 "tx9"
      "A").2.1 tokOrdi (by with_unfolding_all rfl)).1 (by with_unfolding_all decide)
  · have h := ((inscribe_transfer_effects sOrdi1 ⟨tickOrdi, ⟨300, none⟩⟩ 3 102 "tx9"
      "A").2.1 tokOrdi (by with_unfolding_all rfl)).2 (by with_unfolding_all decide)
    rw [h]
    with_unfolding_all rfl

/-- Counterexample for C4 as stated: the accepted inscribe-transfer of
300 `ordi` creates the intent row, yet the event log still contains no
event row carrying a transfer id: no transfer-reserve event was
written. -/
theorem transfer_reserve_event_not_written :
    sT3.transfers.length = 1 ∧
    sT3.events = sT2.events ∧
    sT3.events.filter (fun e => e.transfer_id.isSome) = [] := by
  refine ⟨?_, ?_, ?_⟩ <;> with_unfolding_all rfl

/-- At most one deploy row per lowercased ticker. -/
def UniqTickers (s : Store) : Prop :=
  s.deploys.Pairwise (fun a b => lowerString a.ticker ≠ lowerString b.ticker)

/-- A whole sequence of deploy deliveries. -/
def deployAll (s : Store) (ds : List (Brc20Deploy × Nat × DbLocation)) : Store :=
  ds.foldl (fun st x => insertDeploy st x.1 x.2.1 x.2.2) s

/-- One insertDeploy step preserves ticker uniqueness. -/
lemma insertDeploy_uniq (s : Store) (dep : Brc20Deploy) (iid : Nat) (loc : DbLocation)
    (h : UniqTickers s) : UniqTickers (insertDeploy s dep iid loc) := by
  unfold insertDeploy
  cases loc.address with
  | none => exact h
  | some addr =>
    dsimp only
    by_cases hc : s.deploys.any
        (fun d => lowerString d.ticker == lowerString dep.tick) = true
    · rw [if_pos hc]
      exact h
    · rw [if_neg hc]
      unfold UniqTickers
      dsimp only
      rw [List.pairwise_append]
      refine ⟨h, List.pairwise_singleton _ _, ?_⟩
      intro d hd b hb
      rw [List.mem_singleton] at hb
      subst hb
      dsimp only
      intro heq
      exact hc (List.any_eq_true.mpr ⟨d, hd, beq_iff_eq.mpr heq⟩)

/-- C6: ticker identity is case-insensitive and first-writer-wins: when
a deploy row with the same lowercased ticker already exists, insertDeploy
is a complete no-op (so the earlier deploy survives and no event is
written); when none exists, the row is created and exactly one deploy
event is written; and ticker uniqueness is preserved by every single
deploy and by every sequence of deploys. -/
theorem deploy_ticker_first_writer (s : Store) (dep : Brc20Deploy) (iid bh : Nat)
    (tx addr : String) :
    ((∃ d ∈ s.deploys, lowerString d.ticker = lowerString dep.tick) →
        insertDeploy s dep iid ⟨bh, tx, some addr⟩ = s) ∧
    ((∀ d ∈ s.deploys, lowerString d.ticker ≠ lowerString dep.tick) →
        (insertDeploy s dep iid ⟨bh, tx, some addr⟩).deploys = s.deploys ++
            [⟨s.nextDeployId, iid, bh, tx, addr, dep.tick, dep.max, dep.lim,
              dep.dec.getD 18⟩] ∧
        (insertDeploy s dep iid ⟨bh, tx, some addr⟩).events = s.events ++
            [⟨iid, s.nextDeployId, some s.nextDeployId, none, none⟩]) ∧
    (UniqTickers s → UniqTickers (insertDeploy s dep iid ⟨bh, tx, some addr⟩)) ∧
    (∀ ds, UniqTickers s → UniqTickers (deployAll s ds)) := by
  refine ⟨?_, ?_, insertDeploy_uniq s dep iid ⟨bh, tx, some addr⟩, ?_⟩
  · intro h
    obtain ⟨d, hd, heq⟩ := h
    have hc : (s.deploys.any
        (fun d => lowerString d.ticker == lowerString dep.tick)) = true := by
      rw [List.any_eq_true]
      exact ⟨d, hd, by rw [beq_iff_eq]; exact heq⟩
    unfold insertDeploy
    dsimp only
    rw [hc]
    rfl
  · intro hnone
    have hc : s.deploys.any
        (fun d => lowerString d.ticker == lowerString dep.tick) = false := by
      rw [Bool.eq_false_iff]
      intro habs
      obtain ⟨d, hd, heq⟩ := List.any_eq_true.mp habs
      exact hnone d hd (beq_iff_eq.mp heq)
    constructor <;>
      · unfold insertDeploy
        dsimp only
        rw [hc]
        rfl
  · intro ds
    induction ds generalizing s with
    | nil => exact fun h => h
    | cons x ds ih =>
      intro h
      exact ih _ (insertDeploy_uniq s x.1 x.2.1 x.2.2 h)

/-- Witness for C6: re-deploying with ticker ORDI (same lowercased
ticker as the existing ordi deploy) is a complete no-op, and a fresh
deploy of pepe into the empty store creates its row together with
exactly one deploy event. -/
theorem deploy_ticker_first_writer_witness :
    insertDeploy sOrdi0 ⟨"ORDI", 5, none, none⟩ 7 ⟨107, "tx7", some "B"⟩ = sOrdi0 ∧
    (insertDeploy emptyStore ⟨tickPepe, 100, none, none⟩ 1
        ⟨100, "tx1", some "alice"⟩).events =
      emptyStore.events ++ [⟨1, 1, some 1, none, none⟩] := by
  constructor
  · have hmem : tokOrdi ∈ sOrdi0.deploys := by
      rw [(by with_unfolding_all rfl : sOrdi0.deploys = [tokOrdi])]
      exact List.mem_singleton.mpr rfl
    exact (deploy_ticker_first_writer sOrdi0 ⟨"ORDI", 5, none, none⟩ 7 107 "tx7"
      "B").1 ⟨tokOrdi, hmem, by with_unfolding_all rfl⟩
  · exact ((deploy_ticker_first_writer emptyStore ⟨tickPepe, 100, none, none⟩ 1 100
      "tx1" "alice").2.1 (by intro d hd; cases hd)).2

/-- Recording a location row adds exactly one to the inscription's
location count. -/
lemma locCount_recordLoc (s : Store) (iid : Nat) (loc : DbLocation) :
    locCount (recordLoc s iid loc) iid = locCount s iid + 1 := by
  unfold locCount recordLoc
  dsimp only
  rw [List.filter_append, List.length_append]
  simp

/-- Filtering by inscription id commutes with a map that preserves
inscription ids. -/
lemma filter_map_update (l : List TransferRow) (f : TransferRow → TransferRow)
    (hf : ∀ r, (f r).inscription_id = r.inscription_id) (iid : Nat) :
    (l.map f).filter (fun r => r.inscription_id == iid) =
      (l.filter (fun r => r.inscription_id == iid)).map f := by
  induction l with
  | nil => rfl
  | cons a l ih =>
    rw [List.map_cons, List.filter_cons, List.filter_cons, hf a]
    cases h : (a.inscription_id == iid) <;> simp [ih]

/-- Once an inscription has at least two location rows, a further move
only records the new location: the join count is 0 (no transfer row) or
at least 3 (capped), never 2, so no settlement happens. -/
lemma moveInscription_noop (s : Store) (iid : Nat) (loc : DbLocation)
    (h : 2 ≤ locCount s iid) :
    moveInscription s iid loc = recordLoc s iid loc := by
  unfold moveInscription insertOperationTransfer
  have htf : transFor (recordLoc s iid loc) iid = transFor s iid := rfl
  rw [htf, locCount_recordLoc]
  have hne : (min ((locCount s iid + 1) * (transFor s iid).length) 3 == 2) = false := by
    cases htl : (transFor s iid).length with
    | zero =>
      rw [Nat.mul_zero]
      rfl
    | succ k =>
      have h3 : 3 ≤ (locCount s iid + 1) * (k + 1) := by
        calc 3 = 3 * 1 := by rw [Nat.mul_one]
        _ ≤ (locCount s iid + 1) * (k + 1) :=
          Nat.mul_le_mul (by omega) (by omega)
      rw [Nat.min_eq_right h3]
      rfl
  dsimp only
  rw [hne]
  simp

/-- Every later move after the first is a ledger no-op: folding any list
of further moves changes no balances, transfers, or events, and keeps the
location count at 2 or more. -/
lemma move_fold_noop (iid : Nat) :
    ∀ (locs : List DbLocation) (s : Store), 2 ≤ locCount s iid →
      (locs.foldl (fun st l => moveInscription st iid l) s).balances = s.balances ∧
      (locs.foldl (fun st l => moveInscription st iid l) s).transfers = s.transfers ∧
      (locs.foldl (fun st l => moveInscription st iid l) s).events = s.events := by
  intro locs
  induction locs with
  | nil => exact fun s _ => ⟨rfl, rfl, rfl⟩
  | cons l locs ih =>
    intro s h
    rw [List.foldl_cons, moveInscription_noop s iid l h]
    have h' : 2 ≤ locCount (recordLoc s iid l) iid := by
      rw [locCount_recordLoc]
      omega
    exact ih (recordLoc s iid l) h'

/-- C2 (amended): a transfer-intent is settled at most once, and only on
the first movement of its inscription after the genesis reserve: that
move appends exactly the two settlement deltas and updates the intent's
`to_address`, while every later move leaves balances, transfers, and
events untouched; no reserve or settle event rows are ever written (the
event log is unchanged by the settlement, and by C4 also by the
reserve). -/
theorem transfer_settled_at_most_once (s : Store) (iid : Nat) (t : TransferRow)
    (loc : DbLocation) (locs : List DbLocation)
    (ht : transFor s iid = [t]) (hl : locCount s iid = 1) :
    (moveInscription s iid loc).balances = s.balances ++
      [⟨t.inscription_id, t.brc20_deploy_id, loc.block_height, some t.from_address,
        0, -t.amount⟩,
       ⟨t.inscription_id, t.brc20_deploy_id, loc.block_height, loc.address,
        t.amount, 0⟩] ∧
    transFor (moveInscription s iid loc) iid = [{ t with to_address := loc.address }] ∧
    (moveInscription s iid loc).events = s.events ∧
    ((locs.foldl (fun st l => moveInscription st iid l) (moveInscription s iid loc)).balances =
        (moveInscription s iid loc).balances ∧
     (locs.foldl (fun st l => moveInscription st iid l) (moveInscription s iid loc)).transfers =
        (moveInscription s iid loc).transfers ∧
     (locs.foldl (fun st l => moveInscription st iid l) (moveInscription s iid loc)).events =
        (moveInscription s iid loc).events) := by
  have hstep : moveInscription s iid loc =
      applyBalanceTransfer (recordLoc s iid loc) t loc := by
    unfold moveInscription insertOperationTransfer
    have htf : transFor (recordLoc s iid loc) iid = transFor s iid := rfl
    rw [htf, ht, locCount_recordLoc, hl]
    rfl
  have hlocs : (moveInscription s iid loc).locRows = (recordLoc s iid loc).locRows := by
    rw [hstep]
    rfl
  have hcount : 2 ≤ locCount (moveInscription s iid loc) iid := by
    unfold locCount
    rw [hlocs]
    have : locCount (recordLoc s iid loc) iid = 2 := by
      rw [locCount_recordLoc, hl]
    unfold locCount at this
    omega
  refine ⟨?_, ?_, ?_, move_fold_noop iid locs _ hcount⟩
  · rw [hstep]
    rfl
  · rw [hstep]
    unfold applyBalanceTransfer transFor
    dsimp only
    have hrec : (recordLoc s iid loc).transfers = s.transfers := rfl
    rw [hrec]
    rw [filter_map_update s.transfers _ (fun r => by split <;> rfl) iid]
    have hts : s.transfers.filter (fun r => r.inscription_id == iid) = [t] := ht
    rw [hts]
    rw [List.map_singleton]
    rw [beq_self_eq_true]
    simp
  · rw [hstep]
    rfl

/-- Witness for C2: at the concrete reserved-transfer state the first
move to B settles (the intent's `to_address` becomes B) and a further
move produces no balance changes. -/
theorem transfer_settled_at_most_once_witness :
    transFor (moveInscription sT3 3 ⟨103, "t4", some "B"⟩) 3 =
      [⟨1, 3, 1, 102, "t3", "A", some "B", 300⟩] ∧
    ([(⟨104, "t5", some "C"⟩ : DbLocation)].foldl
        (fun st l => moveInscription st 3 l)
        (moveInscription sT3 3 ⟨103, "t4", some "B"⟩)).balances =
      (moveInscription sT3 3 ⟨103, "t4", some "B"⟩).balances := by
  have h := transfer_settled_at_most_once sT3 3 ⟨1, 3, 1, 102, "t3", "A", none, 300⟩
    ⟨103, "t4", some "B"⟩ [⟨104, "t5", some "C"⟩]
    (by with_unfolding_all rfl) (by with_unfolding_all rfl)
  exact ⟨h.2.1, h.2.2.2.1⟩

/-- Counterexample for C2 as stated: after the reserve and the settling
move of the 300 `ordi` transfer, the intent exists and was settled, yet
the event log contains no row carrying a transfer id at all: there is no
reserve event for the intent (the claim requires exactly one). -/
theorem transfer_events_never_written :
    sT4.transfers.length = 1 ∧
    sT4.transfers.map (fun r => r.to_address) = [some "B"] ∧
    sT4.events.filter (fun e => e.transfer_id.isSome) = [] := by
  refine ⟨?_, ?_, ?_⟩ <;> with_unfolding_all rfl

/-- The location used by the generic mint-history runs (the mint logic
does not branch on it). -/
def mintLoc : DbLocation := ⟨0, "mtx", some "minter"⟩

/-- A history of mint requests for one ticker, applied in order. -/
def runMints (s : Store) (tick : String) (reqs : List ℚ) : Store :=
  reqs.foldl (fun st q => insertMint st ⟨tick, ⟨q, none⟩⟩ 0 mintLoc) s

/-- Appending rows decomposes the minted-amount sum. -/
lemma mintedAmountSum_append (s : Store) (ms : List MintRow) (bs : List BalanceRow)
    (tid : Nat) :
    mintedAmountSum { s with mints := s.mints ++ ms, balances := s.balances ++ bs }
        tid =
      mintedAmountSum s tid +
        ((ms.filter (fun m => m.brc20_deploy_id == tid)).map (fun m => m.amount)).sum := by
  unfold mintedAmountSum
  dsimp only
  rw [List.filter_append, List.map_append, List.sum_append]

/-- Appending rows decomposes the effective-minted sum. -/
lemma effMinted_append (s : Store) (ms : List MintRow) (bs : List BalanceRow)
    (tid : Nat) :
    effMinted { s with mints := s.mints ++ ms, balances := s.balances ++ bs } tid =
      effMinted s tid +
        ((bs.filter (fun b => b.brc20_deploy_id == tid)).map
          (fun b => b.avail_balance)).sum := by
  unfold effMinted tokenBalances
  dsimp only
  rw [List.filter_append, List.map_append, List.sum_append]

/-- Invariant of every mint history: the sum of effective amounts
credited equals the requested-amount sum clamped to the max supply (the
code tracks the requested sum; the clamp makes the two agree on every
reachable state). -/
lemma runMints_inv (tick : String) (tok : TokenRow) :
    ∀ (reqs : List ℚ) (s : Store),
      getDeploy s tick = some tok →
      (∀ q ∈ reqs, limitExceeded tok ⟨q, none⟩ = false) →
      effMinted s tok.id = min (mintedAmountSum s tok.id) tok.max →
      getDeploy (runMints s tick reqs) tick = some tok ∧
      effMinted (runMints s tick reqs) tok.id =
        min (mintedAmountSum (runMints s tick reqs) tok.id) tok.max := by
  intro reqs
  induction reqs with
  | nil =>
    intro s h1 _ h3
    exact ⟨h1, h3⟩
  | cons q reqs ih =>
    intro s h1 h2 h3
    have hq : limitExceeded tok ⟨q, none⟩ = false := h2 q (List.mem_cons_self _ _)
    have hq' : ∀ r ∈ reqs, limitExceeded tok ⟨r, none⟩ = false :=
      fun r hr => h2 r (List.mem_cons_of_mem _ hr)
    have hrun : runMints s tick (q :: reqs) =
        runMints (insertMint s ⟨tick, ⟨q, none⟩⟩ 0 mintLoc) tick reqs := rfl
    rw [hrun]
    have hspec := insertMint_spec s ⟨tick, ⟨q, none⟩⟩ tok 0 mintLoc h1 hq rfl
    by_cases hr : tok.max - mintedAmountSum s tok.id ≤ 0
    · rw [hspec.1 hr]
      exact ih s h1 hq' h3
    · have hacc := hspec.2 (not_le.mp hr)
      refine ih _ ?_ hq' ?_
      · rw [getDeploy_congr s (insertMint s ⟨tick, ⟨q, none⟩⟩ 0 mintLoc) tick
          (insertMint_deploys s ⟨tick, ⟨q, none⟩⟩ 0 mintLoc)]
        exact h1
      · rw [hacc, mintedAmountSum_append, effMinted_append]
        simp only [List.filter_cons, List.filter_nil, beq_self_eq_true, if_true,
          List.map_cons, List.map_nil, List.sum_cons, List.sum_nil, add_zero]
        rw [h3]
        have hRM : mintedAmountSum s tok.id < tok.max := by
          have := not_le.mp hr
          linarith
        rw [min_eq_left (le_of_lt hRM)]
        rcases le_total q (tok.max - mintedAmountSum s tok.id) with hc | hc
        · rw [min_eq_right hc, min_eq_left (by linarith :
            mintedAmountSum s tok.id + q ≤ tok.max)]
        · rw [min_eq_left hc, min_eq_right (by linarith :
            tok.max ≤ mintedAmountSum s tok.id + q)]
          ring

/-- C1: for every mint on a deployed token, any history of prior mints
included, the engine behaves exactly as if it computed the remaining
supply `max - Σ effective credited so far`: it rejects (the store is
unchanged) precisely when that remaining supply is ≤ 0, and otherwise
credits `min(requested, remaining)` while recording the requested
amount. -/
theorem mint_remaining_supply_spec (s0 : Store) (tick : String) (tok : TokenRow)
    (reqs : List ℚ) (a : ℚ) (iid : Nat) (loc : DbLocation)
    (hdep : getDeploy s0 tick = some tok)
    (hm0 : mintedAmountSum s0 tok.id = 0)
    (he0 : effMinted s0 tok.id = 0)
    (hmax : 0 ≤ tok.max)
    (hlim : ∀ q ∈ a :: reqs, limitExceeded tok ⟨q, none⟩ = false) :
    (tok.max - effMinted (runMints s0 tick reqs) tok.id ≤ 0 →
      insertMint (runMints s0 tick reqs) ⟨tick, ⟨a, none⟩⟩ iid loc =
        runMints s0 tick reqs) ∧
    (0 < tok.max - effMinted (runMints s0 tick reqs) tok.id →
      insertMint (runMints s0 tick reqs) ⟨tick, ⟨a, none⟩⟩ iid loc =
        { runMints s0 tick reqs with
          mints := (runMints s0 tick reqs).mints ++
            [⟨iid, tok.id, loc.block_height, loc.tx_id, loc.address, a⟩],
          balances := (runMints s0 tick reqs).balances ++
            [⟨iid, tok.id, loc.block_height, loc.address,
              min a (tok.max - effMinted (runMints s0 tick reqs) tok.id), 0⟩] }) := by
  have hbase : effMinted s0 tok.id = min (mintedAmountSum s0 tok.id) tok.max := by
    rw [he0, hm0, min_eq_left hmax]
  have hinv := runMints_inv tick tok reqs s0 hdep
    (fun q hq => hlim q (List.mem_cons_of_mem _ hq)) hbase
  have hqa := hlim a (List.mem_cons_self _ _)
  have hspec := insertMint_spec (runMints s0 tick reqs) ⟨tick, ⟨a, none⟩⟩ tok iid loc
    hinv.1 hqa rfl
  constructor
  · intro h
    apply hspec.1
    have hME : tok.max ≤ effMinted (runMints s0 tick reqs) tok.id := by linarith
    rw [hinv.2] at hME
    have := le_trans hME (min_le_left _ _)
    linarith
  · intro h
    have hmin : min (mintedAmountSum (runMints s0 tick reqs) tok.id) tok.max <
        tok.max := by
      rw [← hinv.2]
      linarith
    have hRM : mintedAmountSum (runMints s0 tick reqs) tok.id < tok.max := by
      rcases min_lt_iff.mp hmin with h' | h'
      · exact h'
      · exact absurd h' (lt_irrefl _)
    have hER : effMinted (runMints s0 tick reqs) tok.id =
        mintedAmountSum (runMints s0 tick reqs) tok.id := by
      rw [hinv.2, min_eq_left (le_of_lt hRM)]
    have hacc := hspec.2 (by rw [← hER] at hRM ⊢; linarith)
    rw [hacc, hER, min_comm a]

/-- Scenario: deploy of `sats` with max 100 and no limit. -/
def sSats : Store :=
  insertDeploy emptyStore ⟨tickSats, 100, none, none⟩ 1 ⟨100, "tx1", some "alice"⟩

/-- The `sats` deploy row. -/
def tokSats : TokenRow := ⟨1, 1, 100, "tx1", "alice", tickSats, 100, none, 18⟩

/-- Witness for C1 at the spec scenario-3 inputs: after a prior mint of
80 against max 100, a mint requesting 50 is credited exactly the
remaining 20 while the mint row records 50; and after the supply is
exhausted a further mint of 10 is a no-op. -/
theorem mint_remaining_supply_spec_witness :
    insertMint (runMints sSats tickSats [80]) ⟨tickSats, ⟨50, none⟩⟩ 3
        ⟨102, "tx3", some "A"⟩ =
      { runMints sSats tickSats [80] with
        mints := (runMints sSats tickSats [80]).mints ++
          [⟨3, 1, 102, "tx3", some "A", 50⟩],
        balances := (runMints sSats tickSats [80]).balances ++
          [⟨3, 1, 102, some "A", 20, 0⟩] } ∧
    insertMint (runMints sSats tickSats [80, 50]) ⟨tickSats, ⟨10, none⟩⟩ 4
        ⟨103, "tx4", some "A"⟩ =
      runMints sSats tickSats [80, 50] := by
  constructor
  · have h := (mint_remaining_supply_spec sSats tickSats tokSats [80] 50 3
      ⟨102, "tx3", some "A"⟩ (by with_unfolding_all rfl) (by with_unfolding_all rfl)
      (by with_unfolding_all rfl) (by with_unfolding_all decide)
      (fun q _ => rfl)).2 (by with_unfolding_all decide)
    rw [h]
    with_unfolding_all rfl
  · exact (mint_remaining_supply_spec sSats tickSats tokSats [80, 50] 10 4
      ⟨103, "tx4", some "A"⟩ (by with_unfolding_all rfl) (by with_unfolding_all rfl)
      (by with_unfolding_all rfl) (by with_unfolding_all decide)
      (fun q _ => rfl)).1 (by with_unfolding_all decide)

/-- Pointwise sums of balance-row fields split. -/
lemma sum_map_add (l : List BalanceRow) (f g : BalanceRow → ℚ) :
    (l.map (fun b => f b + g b)).sum = (l.map f).sum + (l.map g).sum := by
  induction l with
  | nil => simp
  | cons a l ih =>
    simp only [List.map_cons, List.sum_cons, ih]
    ring

/-- C8 (amended): for every deployed token that has at least one
balance row, the supply query returns the token's max, the minted supply
(the sum of all avail and trans balance deltas of the token), and the
number of distinct addresses whose summed total balance is strictly
positive; on the deploy-then-mint-500 scenario it returns
(21000000, 500, 1). -/
theorem token_supply_query (s : Store) (tick : String) (tok : TokenRow)
    (hdep : getDeploy s tick = some tok)
    (hrows : tokenBalances s tok.id ≠ []) :
    getTokenSupply s tick = SupplyResult.found tok.max
      (((tokenBalances s tok.id).map (fun b => b.avail_balance)).sum +
       ((tokenBalances s tok.id).map (fun b => b.trans_balance)).sum)
      (holdersCount s tok.id) ∧
    getTokenSupply sOrdi1 tickOrdi = SupplyResult.found 21000000 500 1 := by
  constructor
  · unfold getTokenSupply
    rw [hdep]
    dsimp only
    rw [if_neg (by rw [List.isEmpty_iff]; exact hrows)]
    rw [sum_map_add]
  · with_unfolding_all rfl

/-- Witness for C8: the supply query at the scenario state, with its
hypotheses discharged concretely. -/
theorem token_supply_query_witness :
    getTokenSupply sOrdi1 tickOrdi = SupplyResult.found 21000000 500 1 := by
  have hrows : tokenBalances sOrdi1 tokOrdi.id ≠ [] := by
    rw [(by with_unfolding_all rfl :
      tokenBalances sOrdi1 tokOrdi.id = [⟨2, 1, 101, some "A", 500, 0⟩])]
    exact List.cons_ne_nil _ _
  exact (token_supply_query sOrdi1 tickOrdi tokOrdi (by with_unfolding_all rfl)
    hrows).2

/-- Counterexample for C8 as stated: `pepe` is deployed, yet the supply
query does not return any triple for it: the minted sub-query over the
token's (empty) balance rows yields no row and the dereference of its
first element fails. -/
theorem token_supply_not_total :
    (getDeploy sPepe tickPepe).isSome = true ∧
    getTokenSupply sPepe tickPepe = SupplyResult.fail := by
  constructor <;> with_unfolding_all rfl

/-- C10: for a deployed token with no balance rows yet (zero successful
mints), getTokenSupply does not report a zero minted supply: the minted
query returns no rows and `minted[0].total` is dereferenced on an empty
result, so the call fails. -/
theorem token_supply_empty_minted_crash :
    (getDeploy sPunk tickPunk).isSome = true ∧
    sPunk.balances = [] ∧
    getTokenSupply sPunk tickPunk = SupplyResult.fail := by
  refine ⟨?_, ?_, ?_⟩ <;> with_unfolding_all rfl

/-- Draining the queue processes exactly the queued items in their
arrival order. -/
lemma drainOrder_eq (q : List Delivery) : drainOrder q = q := by
  induction q with
  | nil => rfl
  | cons d rest ih => rw [drainOrder, ih]

/-- C9: a block or rollback delivery is rejected exactly when the
pending queue depth is strictly greater than 10 (leaving the queue
unchanged); otherwise the item is enqueued at the tail and the delivery
is accepted; and the single worker drains the shared queue in FIFO
order, processing the deliveries one at a time in arrival order. -/
theorem ingestion_queue_policy (q : List Delivery) (d : Delivery) :
    ((onDelivery q d).1 = false ↔ 10 < q.length) ∧
    (10 < q.length → (onDelivery q d).2 = q) ∧
    (q.length ≤ 10 → (onDelivery q d).1 = true ∧ (onDelivery q d).2 = q ++ [d]) ∧
    drainOrder (onDelivery q d).2 = (onDelivery q d).2 := by
  unfold onDelivery
  by_cases h : 10 < q.length
  · rw [if_pos h]
    exact ⟨by simpa using h, fun _ => rfl, fun h' => absurd h (not_lt.mpr h'),
      drainOrder_eq q⟩
  · rw [if_neg h]
    exact ⟨by simpa using h, fun h' => absurd h' h, fun _ => ⟨rfl, rfl⟩,
      drainOrder_eq (q ++ [d])⟩

/-- Witness for C9: the empty queue accepts a block delivery and holds
it at the tail; a queue of depth 11 rejects a rollback delivery. -/
theorem ingestion_queue_policy_witness :
    ((onDelivery [] (Delivery.apply 5)).1 = true ∧
     (onDelivery [] (Delivery.apply 5)).2 = [Delivery.apply 5]) ∧
    (onDelivery (List.replicate 11 (Delivery.apply 0)) (Delivery.rollback 1)).1 =
      false :=
  ⟨(ingestion_queue_policy [] (Delivery.apply 5)).2.2.1 (by decide),
   (ingestion_queue_policy (List.replicate 11 (Delivery.apply 0))
     (Delivery.rollback 1)).1.mpr (by decide)⟩

end Brc20
